import Mathlib

/-!
Shallow embedding of `main.go` of the weather-app repository: a read-through
TTL cache fronting a weather data provider.  Timestamps and durations are
modelled as `Int` (Go nanoseconds), Go `float64` values as `Rat`, the Go map
`cache` as an association list with unique keys, and the external
collaborators (`strconv.ParseFloat`, `http.Get` + JSON decoding) as explicit
parameters or outcome values.
-/

set_option autoImplicit false

namespace WeatherApp

/-- One element of the `Weather` array of the provider response
(`WeatherResponse.Weather` in `main.go`). -/
structure WeatherCondition where
  id : Int
  main : String
  description : String
  icon : String
deriving DecidableEq, Repr

/-- The `Main` block of the provider response (temperatures as `Rat`). -/
structure MainInfo where
  temp : Rat
  feelsLike : Rat
  tempMin : Rat
  tempMax : Rat
  pressure : Int
  humidity : Int
  seaLevel : Int
  grndLevel : Int
deriving DecidableEq, Repr

/-- The `Wind` block of the provider response. -/
structure WindInfo where
  speed : Rat
  deg : Int
  gust : Rat
deriving DecidableEq, Repr

/-- The provider payload `WeatherResponse` of `main.go` (nested one-field
structs flattened; `Coord` kept as the pair of rationals). -/
structure WeatherResponse where
  coordLon : Rat
  coordLat : Rat
  weather : List WeatherCondition
  base : String
  main : MainInfo
  visibility : Int
  wind : WindInfo
  cloudsAll : Int
  dt : Int
  timezone : Int
  id : Int
  name : String
  cod : Int
deriving DecidableEq, Repr

/-- `CacheEntry` of `main.go`: payload plus population timestamp. -/
structure CacheEntry where
  data : WeatherResponse
  timestamp : Int
deriving DecidableEq, Repr

/-- The global `cache` map, modelled as an association list. -/
abbrev Cache : Type := List (String × CacheEntry)

/-- `cacheDuration = 30 * time.Minute` (nanoseconds). -/
def cacheDuration : Int := 30 * 60 * 1000000000

/-- `evictionInterval = 1 * time.Minute` (nanoseconds). -/
def evictionInterval : Int := 60 * 1000000000

/-- Map lookup `cache[key]` (first matching key). -/
def cacheGet : Cache → String → Option CacheEntry
  | [], _ => none
  | (k, e) :: rest, key => if k = key then some e else cacheGet rest key

/-- Map assignment `cache[key] = entry`: replaces the entry for `key` if
present, otherwise appends a fresh binding. -/
def cachePut : Cache → String → CacheEntry → Cache
  | [], key, entry => [(key, entry)]
  | (k, e) :: rest, key, entry =>
    if k = key then (key, entry) :: rest else (k, e) :: cachePut rest key entry

/-- `isValidLatitude` of `main.go`. -/
def isValidLatitude (lat : Rat) : Bool :=
  -90 ≤ lat && lat ≤ 90

/-- `isValidLongitude` of `main.go`. -/
def isValidLongitude (lon : Rat) : Bool :=
  -180 ≤ lon && lon ≤ 180

/-- The cache key `fmt.Sprintf("%s:%s", latStr, lonStr)` derived from the raw
query text (line 112 of `main.go`). -/
def mkKey (latStr lonStr : String) : String :=
  latStr ++ ":" ++ lonStr

/-- Outcome of the provider round trip made by `getWeather`: `netErr` is a
transport error or a non-200 status from `http.Get`, `decodeErr` a JSON body
that fails to decode, `ok` a decoded `WeatherResponse`. -/
inductive FetchOutcome where
  | netErr
  | decodeErr
  | ok (resp : WeatherResponse)
deriving DecidableEq, Repr

/-- What `getWeather` writes to the `http.ResponseWriter`: a 400
(`http.Error` with `StatusBadRequest`), a 500 (`StatusInternalServerError`),
or the payload handed to `respondWithWeather`. -/
inductive HandlerResponse where
  | badRequest (msg : String)
  | serverError (msg : String)
  | ok (resp : WeatherResponse)
deriving DecidableEq, Repr

/-- Result of one `getWeather` call: the response written, the cache after
the call, and whether the Data Provider (`http.Get`) was invoked. -/
structure HandlerResult where
  response : HandlerResponse
  cache : Cache
  fetched : Bool

/-- The miss path of `getWeather` (lines 126-148 of `main.go`): call the
provider; on transport/status failure or decode failure report a 500 and
leave the cache alone; on success store `{data, timestamp := now}` under
`key` and respond with the decoded payload. -/
def fetchAndCache (key : String) (now : Int) (fetch : FetchOutcome)
    (c : Cache) : HandlerResult :=
  match fetch with
  | .netErr => ⟨.serverError "Failed to get weather data", c, true⟩
  | .decodeErr => ⟨.serverError "Failed to parse weather data", c, true⟩
  | .ok resp => ⟨.ok resp, cachePut c key ⟨resp, now⟩, true⟩

/-- `getWeather` of `main.go`.  `parse` stands for `strconv.ParseFloat`,
`now` for the current time, `fetch` for the outcome the provider would
deliver on this call, and `c` for the cache at entry. -/
def getWeather (parse : String → Option Rat) (latStr lonStr : String)
    (now : Int) (fetch : FetchOutcome) (c : Cache) : HandlerResult :=
  if latStr = "" ∨ lonStr = "" then
    ⟨.badRequest "Please provide latitude and longitude parameters", c, false⟩
  else
    match parse latStr with
    | none => ⟨.badRequest "Invalid latitude value", c, false⟩
    | some lat =>
      if !isValidLatitude lat then ⟨.badRequest "Invalid latitude value", c, false⟩
      else
        match parse lonStr with
        | none => ⟨.badRequest "Invalid longitude value", c, false⟩
        | some lon =>
          if !isValidLongitude lon then ⟨.badRequest "Invalid longitude value", c, false⟩
          else
            let key := mkKey latStr lonStr
            match cacheGet c key with
            | some entry =>
              if now - entry.timestamp < cacheDuration then ⟨.ok entry.data, c, false⟩
              else fetchAndCache key now fetch c
            | none => fetchAndCache key now fetch c

/-- The temperature classification switch of `respondWithWeather`. -/
def temperatureDescription (temp : Rat) : String :=
  if temp ≤ 32 then "very cold"
  else if temp > 32 && temp ≤ 50 then "cold"
  else if temp > 50 && temp ≤ 65 then "chilly"
  else if temp > 65 && temp ≤ 85 then "warm"
  else if temp > 85 && temp ≤ 100 then "hot"
  else "extreme heat"

/-- The JSON object built by `respondWithWeather`. -/
structure WeatherReport where
  locationName : String
  latitude : Rat
  longitude : Rat
  condition : String
  temperature : Rat
  tempDescription : String
  humidity : Int
  pressure : Int
  windSpeed : Rat
  windDirection : Int
deriving DecidableEq, Repr

/-- `respondWithWeather` of `main.go`.  The body reads
`weatherResponse.Weather[0].Main` with no bounds check, so on an empty
`Weather` slice the Go code panics with an index-out-of-range; that outcome
is modelled as `none`. -/
def respondWithWeather (wr : WeatherResponse) : Option WeatherReport :=
  match wr.weather with
  | [] => none
  | w :: _ =>
    some
      { locationName := wr.name
        latitude := wr.coordLat
        longitude := wr.coordLon
        condition := w.main
        temperature := wr.main.temp
        tempDescription := temperatureDescription wr.main.temp
        humidity := wr.main.humidity
        pressure := wr.main.pressure
        windSpeed := wr.wind.speed
        windDirection := wr.wind.deg }

/-- One full pass of the eviction loop body of `startCacheEviction`
(lines 197-205 of `main.go`): every entry whose age exceeds `cacheDuration`
is deleted, every other entry kept. -/
def sweepPass (now : Int) (c : Cache) : Cache :=
  c.filter (fun p => decide (¬ (now - p.2.timestamp > cacheDuration)))

/-- `getCache` of `main.go`: builds and serializes a fresh map of the
current entries; the cache itself is only read. -/
def getCache (c : Cache) : List (String × CacheEntry) × Cache :=
  (c.map (fun p => (p.1, ⟨p.2.data, p.2.timestamp⟩)), c)

/-! ### Decimal text, modelling the validation collaborator -/

/-- Character test for an ASCII decimal digit. -/
def isDigitChar (c : Char) : Bool := '0' ≤ c && c ≤ '9'

/-- Value of a digit string, most significant first. -/
def digitsVal (cs : List Char) : Nat :=
  cs.foldl (fun acc c => 10 * acc + (c.toNat - 48)) 0

/-- Modelled from the spec: the unsigned part of "decimal text" as accepted
by `strconv.ParseFloat` (a collaborator outside the repository), restricted
to plain forms `digits [. digits]` with at least one digit.  Go additionally
accepts exponent, hex-float and inf/nan spellings; none of those contain a
colon either, which is the only property the key-derivation claim uses. -/
def parseMantissa (cs : List Char) : Option Rat :=
  match cs.dropWhile isDigitChar with
  | [] =>
    if cs.takeWhile isDigitChar = [] then none
    else some (digitsVal (cs.takeWhile isDigitChar))
  | '.' :: rest2 =>
    if rest2.dropWhile isDigitChar = [] ∧
        (cs.takeWhile isDigitChar ≠ [] ∨ rest2.takeWhile isDigitChar ≠ []) then
      some ((digitsVal (cs.takeWhile isDigitChar) : Rat)
        + (digitsVal (rest2.takeWhile isDigitChar) : Rat)
          / ((10 : Rat) ^ (rest2.takeWhile isDigitChar).length))
    else none
  | _ :: _ => none

/-- Modelled from the spec: decimal text with an optional sign, the form the
routing layer validates with `strconv.ParseFloat` before the cache is
consulted. -/
def parseDecimal (s : String) : Option Rat :=
  match s.data with
  | '+' :: rest => parseMantissa rest
  | '-' :: rest => (parseMantissa rest).map (fun q => -q)
  | cs => parseMantissa cs

/-! ### The eviction loop as a step relation -/

/-- Phase of the eviction loop of `startCacheEviction`. -/
inductive SweeperPhase where
  | sleeping
  | sweeping
deriving DecidableEq, Repr

/-- State of the eviction loop: phase, clock, and the shared cache. -/
structure SweeperState where
  phase : SweeperPhase
  now : Int
  cache : Cache

/-- One transition of the infinite `for` loop of `startCacheEviction`:
`time.Sleep(evictionInterval)` takes `sleeping` to `sweeping`, advancing the
clock; the locked range-and-delete pass takes `sweeping` back to `sleeping`,
replacing the cache by the sweep of all its entries.  The function is total:
no state lacks a successor, and no per-key outcome can leave the loop. -/
def sweeperStep (s : SweeperState) : SweeperState :=
  match s.phase with
  | .sleeping => ⟨.sweeping, s.now + evictionInterval, s.cache⟩
  | .sweeping => ⟨.sleeping, s.now, sweepPass s.now s.cache⟩

/-! ### Operation sequences over the shared cache -/

/-- An externally triggered mutation of the shared cache: an HTTP request
(`getWeather` on the given query text, with the outcomes of the two
`strconv.ParseFloat` calls and of the provider round trip), or one pass of
the eviction sweeper. -/
inductive Op where
  | request (latStr lonStr : String) (parseLat parseLon : Option Rat)
      (fetch : FetchOutcome)
  | sweep

/-- Effect of one operation, executed at the given time, on the cache. -/
def execOp (c : Cache) : Int × Op → Cache
  | (t, .request la lo pla plo f) =>
    (getWeather (fun s => if s = la then pla else plo) la lo t f c).cache
  | (t, .sweep) => sweepPass t c

/-- Effect of a timed operation sequence on the cache. -/
def execOps (c : Cache) : List (Int × Op) → Cache
  | [] => c
  | op :: rest => execOps (execOp c op) rest

/-- The operation times are non-decreasing, starting no earlier than the
given instant: a monotone clock. -/
def timesMono : Int → List (Int × Op) → Prop
  | _, [] => True
  | t, (t', _) :: rest => t ≤ t' ∧ timesMono t' rest

/-- Every timestamp stored in the cache lies in the past. -/
def tsBounded (c : Cache) (t : Int) : Prop :=
  ∀ p ∈ c, (p : String × CacheEntry).2.timestamp ≤ t

/-! ### Sample data used to instantiate the theorems -/

/-- A sample `Weather` array element. -/
def sampleCondition : WeatherCondition :=
  ⟨800, "Clear", "clear sky", "01d"⟩

/-- A sample provider payload with a non-empty `Weather` slice. -/
def samplePayload : WeatherResponse where
  coordLon := -75
  coordLat := 40
  weather := [sampleCondition]
  base := "stations"
  main := ⟨52, 50, 48, 55, 1016, 73, 1016, 1000⟩
  visibility := 10000
  wind := ⟨6, 350, 9⟩
  cloudsAll := 0
  dt := 1700000000
  timezone := -18000
  id := 4560349
  name := "Philadelphia"
  cod := 200

/-- A second, distinct sample payload. -/
def samplePayload2 : WeatherResponse :=
  { samplePayload with name := "Camden", main := ⟨30, 28, 25, 33, 1020, 60, 1020, 1005⟩ }

/-- A decodable payload whose `Weather` slice is empty, as the provider may
deliver; nothing in `getWeather` rejects it. -/
def emptyWeatherPayload : WeatherResponse :=
  { samplePayload with weather := [] }

/-! ### Basic lemmas about the store operations -/

theorem cacheGet_cachePut_self (c : Cache) (k : String) (v : CacheEntry) :
    cacheGet (cachePut c k v) k = some v := by
  induction c with
  | nil => simp [cachePut, cacheGet]
  | cons p rest ih =>
    obtain ⟨k', e⟩ := p
    by_cases h : k' = k <;> simp [cachePut, cacheGet, h, ih]

theorem cacheGet_cachePut_other (c : Cache) (k k' : String) (v : CacheEntry)
    (hne : k' ≠ k) : cacheGet (cachePut c k v) k' = cacheGet c k' := by
  induction c with
  | nil => simp [cachePut, cacheGet, Ne.symm hne]
  | cons p rest ih =>
    obtain ⟨k'', e⟩ := p
    by_cases h : k'' = k
    · subst h
      simp [cachePut, cacheGet, Ne.symm hne]
    · simp [cachePut, cacheGet, h, ih]

/-! ### C1 - fresh hit serves the stored payload without a fetch -/

/-- C1: with validated inputs, when the store holds an entry for the derived
key whose age is strictly below `cacheDuration`, `getWeather` does not invoke
the Data Provider (for any outcome the provider would have had), returns
exactly the stored payload, and leaves the cache unchanged. -/
theorem getWeather_fresh_hit (parse : String → Option Rat) (latStr lonStr : String)
    (now : Int) (fetch : FetchOutcome) (c : Cache) (lat lon : Rat) (e : CacheEntry)
    (hla : latStr ≠ "") (hlo : lonStr ≠ "")
    (hpla : parse latStr = some lat) (hvla : isValidLatitude lat = true)
    (hplo : parse lonStr = some lon) (hvlo : isValidLongitude lon = true)
    (hget : cacheGet c (mkKey latStr lonStr) = some e)
    (hfresh : now - e.timestamp < cacheDuration) :
    getWeather parse latStr lonStr now fetch c = ⟨.ok e.data, c, false⟩ := by
  simp [getWeather, hla, hlo, hpla, hplo, hvla, hvlo, hget, hfresh]

/-- Witness for C1 at a concrete fresh entry. -/
theorem getWeather_fresh_hit_witness :
    getWeather (fun s => if s = "40.0" then some 40 else some (-75)) "40.0" "-75.0"
      5 .netErr [("40.0:-75.0", ⟨samplePayload, 0⟩)]
      = ⟨.ok samplePayload, [("40.0:-75.0", ⟨samplePayload, 0⟩)], false⟩ :=
  getWeather_fresh_hit _ _ _ _ _ _ 40 (-75) ⟨samplePayload, 0⟩
    (by decide) (by decide) (by simp) (by decide) (by simp) (by decide)
    (by simp [cacheGet, mkKey]) (by decide)

/-! ### C2 - stale or absent entry triggers a fetch and stores the result -/

/-- C2: with validated inputs, when the entry for the derived key is absent
or has age at least `cacheDuration` (the freshness test is strict `<`, so age
exactly `cacheDuration` is stale), `getWeather` invokes the Data Provider and
on success stores `{payload, storedAt := now}` under that key and returns
that payload; the stored entry is retrievable under the same derived key. -/
theorem getWeather_stale_fetch_stores (parse : String → Option Rat)
    (latStr lonStr : String) (now : Int) (resp : WeatherResponse) (c : Cache)
    (lat lon : Rat)
    (hla : latStr ≠ "") (hlo : lonStr ≠ "")
    (hpla : parse latStr = some lat) (hvla : isValidLatitude lat = true)
    (hplo : parse lonStr = some lon) (hvlo : isValidLongitude lon = true)
    (hmiss : cacheGet c (mkKey latStr lonStr) = none ∨
      ∃ e, cacheGet c (mkKey latStr lonStr) = some e ∧
        cacheDuration ≤ now - e.timestamp) :
    getWeather parse latStr lonStr now (.ok resp) c
      = ⟨.ok resp, cachePut c (mkKey latStr lonStr) ⟨resp, now⟩, true⟩ ∧
    cacheGet (getWeather parse latStr lonStr now (.ok resp) c).cache
        (mkKey latStr lonStr) = some ⟨resp, now⟩ ∧
    ∀ f : FetchOutcome, (getWeather parse latStr lonStr now f c).fetched = true := by
  have hmain : getWeather parse latStr lonStr now (.ok resp) c
      = ⟨.ok resp, cachePut c (mkKey latStr lonStr) ⟨resp, now⟩, true⟩ := by
    rcases hmiss with hnone | ⟨e, hsome, hstale⟩
    · simp [getWeather, fetchAndCache, hla, hlo, hpla, hplo, hvla, hvlo, hnone]
    · have hnf : ¬ (now - e.timestamp < cacheDuration) := not_lt.2 hstale
      simp [getWeather, fetchAndCache, hla, hlo, hpla, hplo, hvla, hvlo, hsome, hnf]
  refine ⟨hmain, ?_, ?_⟩
  · rw [hmain]
    exact cacheGet_cachePut_self c (mkKey latStr lonStr) ⟨resp, now⟩
  · intro f
    rcases hmiss with hnone | ⟨e, hsome, hstale⟩
    · cases f <;>
        simp [getWeather, fetchAndCache, hla, hlo, hpla, hplo, hvla, hvlo, hnone]
    · have hnf : ¬ (now - e.timestamp < cacheDuration) := not_lt.2 hstale
      cases f <;>
        simp [getWeather, fetchAndCache, hla, hlo, hpla, hplo, hvla, hvlo, hsome, hnf]

/-- Witness for C2 at an entry whose age is exactly `cacheDuration`. -/
theorem getWeather_stale_fetch_stores_witness :
    getWeather (fun s => if s = "40.0" then some 40 else some (-75)) "40.0" "-75.0"
      cacheDuration (.ok samplePayload2) [("40.0:-75.0", ⟨samplePayload, 0⟩)]
      = ⟨.ok samplePayload2,
          cachePut [("40.0:-75.0", ⟨samplePayload, 0⟩)] (mkKey "40.0" "-75.0")
            ⟨samplePayload2, cacheDuration⟩, true⟩ ∧
    cacheGet (getWeather (fun s => if s = "40.0" then some 40 else some (-75))
        "40.0" "-75.0" cacheDuration (.ok samplePayload2)
        [("40.0:-75.0", ⟨samplePayload, 0⟩)]).cache (mkKey "40.0" "-75.0")
      = some ⟨samplePayload2, cacheDuration⟩ ∧
    ∀ f : FetchOutcome,
      (getWeather (fun s => if s = "40.0" then some 40 else some (-75)) "40.0" "-75.0"
        cacheDuration f [("40.0:-75.0", ⟨samplePayload, 0⟩)]).fetched = true :=
  getWeather_stale_fetch_stores _ _ _ _ _ _ 40 (-75)
    (by decide) (by decide) (by simp) (by decide) (by simp) (by decide)
    (Or.inr ⟨⟨samplePayload, 0⟩, by simp [cacheGet, mkKey], by decide⟩)

/-! ### C3 - provider failure propagates and leaves the store untouched -/

/-- C3: with validated inputs and a stale or absent entry, if the provider
round trip fails (transport error / non-200 status, or a body that fails to
decode), `getWeather` reports a 500 to the caller and the cache after the
call is exactly the cache before it: no entry is created, refreshed, or
removed. -/
theorem getWeather_fetch_failure (parse : String → Option Rat)
    (latStr lonStr : String) (now : Int) (fetch : FetchOutcome) (c : Cache)
    (lat lon : Rat)
    (hla : latStr ≠ "") (hlo : lonStr ≠ "")
    (hpla : parse latStr = some lat) (hvla : isValidLatitude lat = true)
    (hplo : parse lonStr = some lon) (hvlo : isValidLongitude lon = true)
    (hmiss : cacheGet c (mkKey latStr lonStr) = none ∨
      ∃ e, cacheGet c (mkKey latStr lonStr) = some e ∧
        cacheDuration ≤ now - e.timestamp)
    (hf : fetch = .netErr ∨ fetch = .decodeErr) :
    ∃ msg, getWeather parse latStr lonStr now fetch c = ⟨.serverError msg, c, true⟩ := by
  have step : ∀ m, fetchAndCache (mkKey latStr lonStr) now fetch c
      = ⟨.serverError m, c, true⟩ →
      ∃ msg, getWeather parse latStr lonStr now fetch c = ⟨.serverError msg, c, true⟩ := by
    intro m hm
    refine ⟨m, ?_⟩
    rcases hmiss with hnone | ⟨e, hsome, hstale⟩
    · simpa [getWeather, hla, hlo, hpla, hplo, hvla, hvlo, hnone] using hm
    · have hnf : ¬ (now - e.timestamp < cacheDuration) := not_lt.2 hstale
      simpa [getWeather, hla, hlo, hpla, hplo, hvla, hvlo, hsome, hnf] using hm
  rcases hf with hf | hf <;> subst hf
  · exact step "Failed to get weather data" (by simp [fetchAndCache])
  · exact step "Failed to parse weather data" (by simp [fetchAndCache])

/-- Witness for C3: a decode failure on a miss leaves the empty cache empty. -/
theorem getWeather_fetch_failure_witness :
    ∃ msg, getWeather (fun s => if s = "40.0" then some 40 else some (-75))
      "40.0" "-75.0" 5 .decodeErr ([] : Cache) = ⟨.serverError msg, [], true⟩ :=
  getWeather_fetch_failure _ _ _ _ _ _ 40 (-75)
    (by decide) (by decide) (by simp) (by decide) (by simp) (by decide)
    (Or.inl (by simp [cacheGet, mkKey])) (Or.inr rfl)

/-! ### Lookup lemmas for filtered caches -/

theorem cacheGet_none_of_not_mem_keys (c : Cache) (k : String)
    (h : k ∉ c.map Prod.fst) : cacheGet c k = none := by
  induction c with
  | nil => rfl
  | cons p rest ih =>
    obtain ⟨k', e⟩ := p
    simp only [List.map_cons, List.mem_cons] at h
    push_neg at h
    simp [cacheGet, Ne.symm h.1, ih h.2]

theorem cacheGet_filter_none (f : String × CacheEntry → Bool) (c : Cache)
    (k : String) (h : cacheGet c k = none) : cacheGet (c.filter f) k = none := by
  induction c with
  | nil => rfl
  | cons p rest ih =>
    obtain ⟨k', e⟩ := p
    by_cases hk : k' = k
    · simp [cacheGet, hk] at h
    · simp only [cacheGet, if_neg hk] at h
      by_cases hf : f (k', e) <;> simp [List.filter_cons, hf, cacheGet, hk, ih h]

theorem cacheGet_sweepPass (now : Int) (c : Cache) (k : String) (e : CacheEntry)
    (hnd : (c.map Prod.fst).Nodup) (hget : cacheGet c k = some e) :
    cacheGet (sweepPass now c) k
      = if now - e.timestamp > cacheDuration then none else some e := by
  induction c with
  | nil => simp [cacheGet] at hget
  | cons p rest ih =>
    obtain ⟨k', e'⟩ := p
    simp only [List.map_cons, List.nodup_cons] at hnd
    by_cases hk : k' = k
    · subst hk
      have hee : e' = e := by simpa [cacheGet] using hget
      subst hee
      by_cases hs : now - e'.timestamp > cacheDuration
      · have hrest : cacheGet rest k' = none :=
          cacheGet_none_of_not_mem_keys rest k' hnd.1
        have hnone : cacheGet (sweepPass now rest) k' = none :=
          cacheGet_filter_none _ rest k' hrest
        have hcond : decide (¬ (now - e'.timestamp > cacheDuration)) = false := by
          simp [hs]
        rw [if_pos hs]
        simp only [sweepPass, List.filter_cons, hcond, Bool.false_eq_true, if_false]
        simpa only [sweepPass] using hnone
      · simp only [sweepPass, List.filter_cons]
        simp [hs, cacheGet]
    · simp only [cacheGet, if_neg hk] at hget
      have hrec := ih hnd.2 hget
      simp only [sweepPass, List.filter_cons] at hrec ⊢
      by_cases hf : now - e'.timestamp > cacheDuration
      · simpa [hf] using hrec
      · simpa [hf, cacheGet, hk] using hrec

/-! ### C4 - one sweep pass removes exactly the stale entries -/

/-- C4: one pass of the eviction sweep keeps a (key, entry) binding exactly
when its age does not exceed `cacheDuration` (those with
`now - storedAt > cacheDuration` are deleted), with payload and timestamp
untouched; at the lookup level, under the map invariant of unique keys, a
stored entry looks up to `none` after the pass when stale and to its
original, unchanged self when not. -/
theorem sweepPass_removes_exactly_stale (now : Int) (c : Cache) :
    (∀ p : String × CacheEntry,
      p ∈ sweepPass now c ↔ p ∈ c ∧ now - p.2.timestamp ≤ cacheDuration) ∧
    ((c.map Prod.fst).Nodup → ∀ k e, cacheGet c k = some e →
      cacheGet (sweepPass now c) k
        = if now - e.timestamp > cacheDuration then none else some e) := by
  constructor
  · intro p
    simp [sweepPass, List.mem_filter, not_lt]
  · intro hnd k e hget
    exact cacheGet_sweepPass now c k e hnd hget

/-- Witness for C4: a two-entry store where exactly the stale entry goes. -/
theorem sweepPass_removes_exactly_stale_witness :
    cacheGet (sweepPass (cacheDuration + 1)
        [("a", ⟨samplePayload, 0⟩), ("b", ⟨samplePayload2, 1⟩)]) "a" = none ∧
    cacheGet (sweepPass (cacheDuration + 1)
        [("a", ⟨samplePayload, 0⟩), ("b", ⟨samplePayload2, 1⟩)]) "b"
      = some ⟨samplePayload2, 1⟩ := by
  constructor
  · rw [(sweepPass_removes_exactly_stale (cacheDuration + 1)
      [("a", ⟨samplePayload, 0⟩), ("b", ⟨samplePayload2, 1⟩)]).2 (by simp) "a"
      ⟨samplePayload, 0⟩ (by simp [cacheGet])]
    decide
  · rw [(sweepPass_removes_exactly_stale (cacheDuration + 1)
      [("a", ⟨samplePayload, 0⟩), ("b", ⟨samplePayload2, 1⟩)]).2 (by simp) "b"
      ⟨samplePayload2, 1⟩ (by simp [cacheGet])]
    decide

/-! ### C6 - invalid inputs are rejected before the cache is touched -/

/-- C6: a request whose latitude or longitude text is missing, unparsable,
or out of range is answered with a 400 while the cache is left untouched and
the Data Provider is never called; the range checks accept the boundary
values -90, 90, -180 and 180. -/
theorem getWeather_rejects_invalid (parse : String → Option Rat)
    (latStr lonStr : String) (now : Int) (fetch : FetchOutcome) (c : Cache)
    (hbad : latStr = "" ∨ lonStr = "" ∨ parse latStr = none ∨
      (∃ lat, parse latStr = some lat ∧ isValidLatitude lat = false) ∨
      parse lonStr = none ∨
      (∃ lon, parse lonStr = some lon ∧ isValidLongitude lon = false)) :
    (∃ msg, getWeather parse latStr lonStr now fetch c = ⟨.badRequest msg, c, false⟩) ∧
    isValidLatitude (-90) = true ∧ isValidLatitude 90 = true ∧
    isValidLongitude (-180) = true ∧ isValidLongitude 180 = true := by
  refine ⟨?_, by decide, by decide, by decide, by decide⟩
  by_cases h0 : latStr = "" ∨ lonStr = ""
  · exact ⟨"Please provide latitude and longitude parameters", by simp [getWeather, h0]⟩
  · have h1 : ¬ latStr = "" := fun h => h0 (Or.inl h)
    have h2 : ¬ lonStr = "" := fun h => h0 (Or.inr h)
    cases hpl : parse latStr with
    | none => exact ⟨"Invalid latitude value", by simp [getWeather, h1, h2, hpl]⟩
    | some lat =>
      cases hvl : isValidLatitude lat with
      | false =>
        exact ⟨"Invalid latitude value", by simp [getWeather, h1, h2, hpl, hvl]⟩
      | true =>
        cases hpo : parse lonStr with
        | none =>
          exact ⟨"Invalid longitude value", by simp [getWeather, h1, h2, hpl, hvl, hpo]⟩
        | some lon =>
          cases hvo : isValidLongitude lon with
          | false =>
            exact ⟨"Invalid longitude value",
              by simp [getWeather, h1, h2, hpl, hvl, hpo, hvo]⟩
          | true =>
            exfalso
            rcases hbad with h | h | h | ⟨la, hla, hfa⟩ | h | ⟨lo, hlo, hfo⟩
            · exact h1 h
            · exact h2 h
            · rw [hpl] at h
              exact Option.noConfusion h
            · rw [hpl] at hla
              rw [Option.some.injEq] at hla
              subst hla
              rw [hvl] at hfa
              exact Bool.noConfusion hfa
            · rw [hpo] at h
              exact Option.noConfusion h
            · rw [hpo] at hlo
              rw [Option.some.injEq] at hlo
              subst hlo
              rw [hvo] at hfo
              exact Bool.noConfusion hfo

/-- Witness for C6: an out-of-range latitude is rejected with the cache
untouched. -/
theorem getWeather_rejects_invalid_witness :
    (∃ msg, getWeather (fun _ => some 91) "91.0" "0.0" 0 .netErr ([] : Cache)
      = ⟨.badRequest msg, [], false⟩) ∧
    isValidLatitude (-90) = true ∧ isValidLatitude 90 = true ∧
    isValidLongitude (-180) = true ∧ isValidLongitude 180 = true :=
  getWeather_rejects_invalid (fun _ => some 91) "91.0" "0.0" 0 .netErr []
    (Or.inr (Or.inr (Or.inr (Or.inl ⟨91, rfl, by decide⟩))))

theorem parseMantissa_chars (cs : List Char) (q : Rat)
    (h : parseMantissa cs = some q) :
    ∀ c ∈ cs, isDigitChar c = true ∨ c = '.' := by
  have hsplit := List.takeWhile_append_dropWhile isDigitChar cs
  unfold parseMantissa at h
  split at h
  · rename_i heq
    intro c hc
    rw [heq, List.append_nil] at hsplit
    rw [← hsplit] at hc
    exact Or.inl (List.mem_takeWhile_imp hc)
  · rename_i rest2 heq
    split at h
    · rename_i hcond
      intro c hc
      rw [heq] at hsplit
      rw [← hsplit] at hc
      rcases List.mem_append.1 hc with hc1 | hc2
      · exact Or.inl (List.mem_takeWhile_imp hc1)
      · rcases List.mem_cons.1 hc2 with rfl | hc3
        · exact Or.inr rfl
        · have hall : rest2.takeWhile isDigitChar = rest2 := by
            have h2 := List.takeWhile_append_dropWhile isDigitChar rest2
            rw [hcond.1, List.append_nil] at h2
            exact h2
          rw [← hall] at hc3
          exact Or.inl (List.mem_takeWhile_imp hc3)
    · exact absurd h (by simp)
  · rename_i head tail heq hne
    exact absurd h (by simp)

theorem parseDecimal_chars (s : String) (q : Rat) (h : parseDecimal s = some q) :
    ':' ∉ s.data := by
  have hdig : isDigitChar ':' = false := by decide
  unfold parseDecimal at h
  split at h
  · rename_i rest heq
    intro hc
    rw [heq] at hc
    rcases List.mem_cons.1 hc with h1 | h1
    · exact absurd h1 (by decide)
    · rcases parseMantissa_chars rest q h ':' h1 with hd | hd
      · rw [hdig] at hd
        exact Bool.noConfusion hd
      · exact absurd hd (by decide)
  · rename_i rest heq
    intro hc
    rw [heq] at hc
    cases hq' : parseMantissa rest with
    | none =>
      rw [hq', Option.map_none'] at h
      exact Option.noConfusion h
    | some q' =>
      rcases List.mem_cons.1 hc with h1 | h1
      · exact absurd h1 (by decide)
      · rcases parseMantissa_chars rest q' hq' ':' h1 with hd | hd
        · rw [hdig] at hd
          exact Bool.noConfusion hd
        · exact absurd hd (by decide)
  · rename_i hne1 hne2
    intro hc
    rcases parseMantissa_chars s.data q h ':' hc with hd | hd
    · rw [hdig] at hd
      exact Bool.noConfusion hd
    · exact absurd hd (by decide)

theorem append_colon_inj (a b c d : List Char)
    (ha : ':' ∉ a) (hc : ':' ∉ c)
    (h : a ++ ':' :: b = c ++ ':' :: d) : a = c ∧ b = d := by
  induction a generalizing c with
  | nil =>
    cases c with
    | nil => simpa using h
    | cons y c' =>
      simp only [List.nil_append, List.cons_append, List.cons.injEq] at h
      exact absurd (by rw [h.1]; exact List.mem_cons_self y c') hc
  | cons x a' ih =>
    cases c with
    | nil =>
      simp only [List.cons_append, List.nil_append, List.cons.injEq] at h
      exact absurd (by rw [← h.1]; exact List.mem_cons_self x a') ha
    | cons y c' =>
      simp only [List.cons_append, List.cons.injEq] at h
      obtain ⟨rfl, h2⟩ := h
      have ha' : ':' ∉ a' := fun hx => ha (List.mem_cons_of_mem _ hx)
      have hc' : ':' ∉ c' := fun hx => hc (List.mem_cons_of_mem _ hx)
      obtain ⟨h3, h4⟩ := ih c' ha' hc' h2
      exact ⟨by rw [h3], h4⟩

theorem mkKey_inj_of_no_colon (la lo la' lo' : String)
    (h1 : ':' ∉ la.data) (h2 : ':' ∉ la'.data)
    (hk : mkKey la lo = mkKey la' lo') : la = la' ∧ lo = lo' := by
  have hcolon : (":" : String).data = [':'] := rfl
  have hdata : la.data ++ ':' :: lo.data = la'.data ++ ':' :: lo'.data := by
    have h0 := congrArg String.data hk
    simpa [mkKey, String.data_append, hcolon] using h0
  obtain ⟨ha, hb⟩ := append_colon_inj _ _ _ _ h1 h2 hdata
  constructor
  · cases la
    cases la'
    exact congrArg String.mk ha
  · cases lo
    cases lo'
    exact congrArg String.mk hb

/-! ### C5 - the cache key is derived from the raw input text -/

/-- C5: the key `latStr ++ ":" ++ lonStr` is built from the raw query text
by the single derivation `mkKey` used for both lookup and storage: for
inputs that pass decimal validation, two calls agree on the key exactly when
their input texts are identical — textually distinct inputs (even ones
denoting the same number) always get distinct keys. -/
theorem mkKey_raw_text_inj (la lo la' lo' : String)
    (h1 : (parseDecimal la).isSome) (h2 : (parseDecimal lo).isSome)
    (h3 : (parseDecimal la').isSome) (h4 : (parseDecimal lo').isSome) :
    mkKey la lo = mkKey la' lo' ↔ (la = la' ∧ lo = lo') := by
  constructor
  · intro hk
    obtain ⟨q1, hq1⟩ := Option.isSome_iff_exists.1 h1
    obtain ⟨q3, hq3⟩ := Option.isSome_iff_exists.1 h3
    exact mkKey_inj_of_no_colon la lo la' lo'
      (parseDecimal_chars la q1 hq1) (parseDecimal_chars la' q3 hq3) hk
  · rintro ⟨rfl, rfl⟩
    rfl

/-- Witness for C5: `"12.500000"` and `"12.5"` denote the same number but
get distinct keys. -/
theorem mkKey_raw_text_inj_witness :
    mkKey "12.500000" "-98.000000" = mkKey "12.5" "-98.0" ↔
      ("12.500000" = "12.5" ∧ "-98.000000" = "-98.0") :=
  mkKey_raw_text_inj "12.500000" "-98.000000" "12.5" "-98.0"
    (by decide) (by decide) (by decide) (by decide)

/-! ### Membership and key-set lemmas for the store -/

theorem mem_of_cacheGet (c : Cache) (k : String) (e : CacheEntry)
    (h : cacheGet c k = some e) : (k, e) ∈ c := by
  induction c with
  | nil => exact Option.noConfusion h
  | cons p rest ih =>
    obtain ⟨k', e'⟩ := p
    by_cases hk : k' = k
    · subst hk
      have he : e' = e := by simpa [cacheGet] using h
      exact List.mem_cons.2 (Or.inl (by rw [he]))
    · simp only [cacheGet, if_neg hk] at h
      exact List.mem_cons_of_mem _ (ih h)

theorem mem_cachePut (c : Cache) (k : String) (v : CacheEntry)
    (p : String × CacheEntry) (h : p ∈ cachePut c k v) : p = (k, v) ∨ p ∈ c := by
  induction c with
  | nil => simpa [cachePut] using h
  | cons q rest ih =>
    obtain ⟨k', e⟩ := q
    by_cases hk : k' = k
    · subst hk
      simp [cachePut] at h ⊢
      tauto
    · simp only [cachePut, if_neg hk, List.mem_cons] at h ⊢
      rcases h with h | h
      · tauto
      · rcases ih h with h | h <;> tauto

theorem mem_keys_cachePut (c : Cache) (k k' : String) (v : CacheEntry)
    (h : k' ∈ (cachePut c k v).map Prod.fst) : k' = k ∨ k' ∈ c.map Prod.fst := by
  induction c with
  | nil => simpa [cachePut] using h
  | cons q rest ih =>
    obtain ⟨k'', e⟩ := q
    by_cases hk : k'' = k
    · subst hk
      simp [cachePut] at h ⊢
      tauto
    · simp only [cachePut, if_neg hk, List.map_cons, List.mem_cons] at h ⊢
      rcases h with h | h
      · tauto
      · rcases ih h with h | h <;> tauto

theorem nodupKeys_cachePut (c : Cache) (k : String) (v : CacheEntry)
    (h : (c.map Prod.fst).Nodup) : ((cachePut c k v).map Prod.fst).Nodup := by
  induction c with
  | nil => simp [cachePut]
  | cons p rest ih =>
    obtain ⟨k', e⟩ := p
    simp only [List.map_cons, List.nodup_cons] at h
    by_cases hk : k' = k
    · subst hk
      simpa [cachePut] using And.intro h.1 h.2
    · simp only [cachePut, if_neg hk, List.map_cons, List.nodup_cons]
      refine ⟨?_, ih h.2⟩
      intro hmem
      rcases mem_keys_cachePut rest k k' v hmem with h1 | h1
      · exact hk h1
      · exact h.1 h1

/-! ### The two possible cache effects of one request -/

theorem fetchAndCache_cache_cases (key : String) (now : Int) (f : FetchOutcome)
    (c : Cache) :
    (fetchAndCache key now f c).cache = c ∨
    ∃ resp, f = .ok resp ∧
      (fetchAndCache key now f c).cache = cachePut c key ⟨resp, now⟩ := by
  cases f with
  | netErr => exact Or.inl rfl
  | decodeErr => exact Or.inl rfl
  | ok resp => exact Or.inr ⟨resp, rfl, rfl⟩

theorem getWeather_cache_cases (parse : String → Option Rat) (la lo : String)
    (now : Int) (f : FetchOutcome) (c : Cache) :
    (getWeather parse la lo now f c).cache = c ∨
    ∃ resp, f = .ok resp ∧
      (getWeather parse la lo now f c).cache = cachePut c (mkKey la lo) ⟨resp, now⟩ := by
  by_cases h0 : la = "" ∨ lo = ""
  · exact Or.inl (by simp [getWeather, h0])
  · have h1 : ¬ la = "" := fun h => h0 (Or.inl h)
    have h2 : ¬ lo = "" := fun h => h0 (Or.inr h)
    cases hpl : parse la with
    | none => exact Or.inl (by simp [getWeather, h1, h2, hpl])
    | some lat =>
      cases hvl : isValidLatitude lat with
      | false => exact Or.inl (by simp [getWeather, h1, h2, hpl, hvl])
      | true =>
        cases hpo : parse lo with
        | none => exact Or.inl (by simp [getWeather, h1, h2, hpl, hvl, hpo])
        | some lon =>
          cases hvo : isValidLongitude lon with
          | false => exact Or.inl (by simp [getWeather, h1, h2, hpl, hvl, hpo, hvo])
          | true =>
            cases hg : cacheGet c (mkKey la lo) with
            | none =>
              have heq : getWeather parse la lo now f c
                  = fetchAndCache (mkKey la lo) now f c := by
                simp [getWeather, h1, h2, hpl, hvl, hpo, hvo, hg]
              rw [heq]
              exact fetchAndCache_cache_cases _ _ _ _
            | some e =>
              by_cases hf : now - e.timestamp < cacheDuration
              · exact Or.inl (by simp [getWeather, h1, h2, hpl, hvl, hpo, hvo, hg, hf])
              · have heq : getWeather parse la lo now f c
                    = fetchAndCache (mkKey la lo) now f c := by
                  simp [getWeather, h1, h2, hpl, hvl, hpo, hvo, hg, hf]
                rw [heq]
                exact fetchAndCache_cache_cases _ _ _ _

/-! ### Preservation lemmas along operation sequences -/

theorem tsBounded_mono (c : Cache) (t t' : Int) (h : tsBounded c t) (ht : t ≤ t') :
    tsBounded c t' :=
  fun p hp => le_trans (h p hp) ht

theorem tsBounded_cachePut (c : Cache) (k : String) (v : CacheEntry) (t : Int)
    (h : tsBounded c t) (hv : v.timestamp ≤ t) : tsBounded (cachePut c k v) t := by
  intro p hp
  rcases mem_cachePut c k v p hp with rfl | hp'
  · exact hv
  · exact h p hp'

theorem tsBounded_execOp (c : Cache) (t0 t : Int) (op : Op)
    (h : tsBounded c t0) (ht : t0 ≤ t) : tsBounded (execOp c (t, op)) t := by
  have hct : tsBounded c t := tsBounded_mono c t0 t h ht
  cases op with
  | sweep =>
    intro p hp
    simp only [execOp, sweepPass] at hp
    exact hct p (List.mem_of_mem_filter hp)
  | request la lo pla plo f =>
    rcases getWeather_cache_cases (fun s => if s = la then pla else plo) la lo t f c
      with hcc | ⟨resp, hfe, hcc⟩
    · intro p hp
      simp only [execOp] at hp
      rw [hcc] at hp
      exact hct p hp
    · intro p hp
      simp only [execOp] at hp
      rw [hcc] at hp
      exact tsBounded_cachePut c (mkKey la lo) ⟨resp, t⟩ t hct le_rfl p hp

theorem nodupKeys_execOp (c : Cache) (t : Int) (op : Op)
    (h : (c.map Prod.fst).Nodup) : ((execOp c (t, op)).map Prod.fst).Nodup := by
  cases op with
  | sweep =>
    simp only [execOp, sweepPass]
    exact h.sublist (List.Sublist.map Prod.fst (List.filter_sublist c))
  | request la lo pla plo f =>
    rcases getWeather_cache_cases (fun s => if s = la then pla else plo) la lo t f c
      with hcc | ⟨resp, hfe, hcc⟩
    · simp only [execOp]
      rw [hcc]
      exact h
    · simp only [execOp]
      rw [hcc]
      exact nodupKeys_cachePut c (mkKey la lo) ⟨resp, t⟩ h

theorem cacheGet_execOp_origin (c : Cache) (t : Int) (op : Op) (k : String)
    (e' : CacheEntry) (hnd : (c.map Prod.fst).Nodup)
    (h : cacheGet (execOp c (t, op)) k = some e') :
    cacheGet c k = some e' ∨ e'.timestamp = t := by
  cases op with
  | sweep =>
    simp only [execOp] at h
    cases hg : cacheGet c k with
    | none =>
      have hnone := cacheGet_filter_none
        (fun p => decide (¬ (t - p.2.timestamp > cacheDuration))) c k hg
      rw [show sweepPass t c
          = c.filter (fun p => decide (¬ (t - p.2.timestamp > cacheDuration))) from rfl]
        at h
      rw [h] at hnone
      exact Option.noConfusion hnone
    | some e0 =>
      rw [cacheGet_sweepPass t c k e0 hnd hg] at h
      by_cases hs : t - e0.timestamp > cacheDuration
      · rw [if_pos hs] at h
        exact Option.noConfusion h
      · rw [if_neg hs] at h
        rw [Option.some.injEq] at h
        exact Or.inl (congrArg some h)
  | request la lo pla plo f =>
    rcases getWeather_cache_cases (fun s => if s = la then pla else plo) la lo t f c
      with hcc | ⟨resp, hfe, hcc⟩
    · simp only [execOp] at h
      rw [hcc] at h
      exact Or.inl h
    · simp only [execOp] at h
      rw [hcc] at h
      by_cases hk : k = mkKey la lo
      · subst hk
        rw [cacheGet_cachePut_self] at h
        rw [Option.some.injEq] at h
        right
        rw [← h]
      · rw [cacheGet_cachePut_other c (mkKey la lo) k ⟨resp, t⟩ hk] at h
        exact Or.inl h

theorem cacheGet_execOps_origin (ops : List (Int × Op)) (c : Cache) (t0 : Int)
    (k : String) (e' : CacheEntry)
    (hnd : (c.map Prod.fst).Nodup) (hb : tsBounded c t0) (hm : timesMono t0 ops)
    (h : cacheGet (execOps c ops) k = some e') :
    cacheGet c k = some e' ∨ t0 ≤ e'.timestamp := by
  induction ops generalizing c t0 with
  | nil => exact Or.inl h
  | cons op rest ih =>
    obtain ⟨t, o⟩ := op
    obtain ⟨ht, hm'⟩ := hm
    have hnd1 := nodupKeys_execOp c t o hnd
    have hb1 := tsBounded_execOp c t0 t o hb ht
    have h0 : cacheGet (execOps (execOp c (t, o)) rest) k = some e' := h
    rcases ih (execOp c (t, o)) t hnd1 hb1 hm' h0 with h1 | h1
    · rcases cacheGet_execOp_origin c t o k e' hnd h1 with h2 | h2
      · exact Or.inl h2
      · exact Or.inr (by rw [h2]; exact ht)
    · exact Or.inr (le_trans ht h1)

/-! ### C7 - storedAt is monotonically non-decreasing per key -/

/-- C7: across any timed sequence of operations on the store (requests that
may write, sweeper passes) under a monotone clock — times non-decreasing and
every stored timestamp in the past — the entry found for a key after the
sequence never carries an older timestamp than the entry found before it: a
write replacing an entry always carries a timestamp ≥ the one it replaces. -/
theorem storedAt_monotone (ops : List (Int × Op)) (c : Cache) (t0 : Int)
    (k : String) (e e' : CacheEntry)
    (hnd : (c.map Prod.fst).Nodup) (hb : tsBounded c t0) (hm : timesMono t0 ops)
    (h1 : cacheGet c k = some e) (h2 : cacheGet (execOps c ops) k = some e') :
    e.timestamp ≤ e'.timestamp := by
  rcases cacheGet_execOps_origin ops c t0 k e' hnd hb hm h2 with h | h
  · rw [h1] at h
    rw [Option.some.injEq] at h
    exact le_of_eq (by rw [h])
  · exact le_trans (hb (k, e) (mem_of_cacheGet c k e h1)) h

/-- Witness for C7: a refresh at time `cacheDuration` replaces a timestamp-0
entry with a newer one. -/
theorem storedAt_monotone_witness :
    (⟨samplePayload, 0⟩ : CacheEntry).timestamp
      ≤ (⟨samplePayload2, cacheDuration⟩ : CacheEntry).timestamp :=
  storedAt_monotone
    [(cacheDuration, .request "40.0" "-75.0" (some 40) (some (-75)) (.ok samplePayload2))]
    [("40.0:-75.0", ⟨samplePayload, 0⟩)] 0 "40.0:-75.0"
    ⟨samplePayload, 0⟩ ⟨samplePayload2, cacheDuration⟩
    (by simp)
    (by
      intro p hp
      rw [List.mem_singleton] at hp
      subst hp
      decide)
    ⟨by decide, trivial⟩ (by simp [cacheGet]) (by decide)

/-! ### C9 - the sweeper never reaches a terminal state -/

theorem sweeperStep_of_sleeping (s : SweeperState) (h : s.phase = .sleeping) :
    sweeperStep s = ⟨.sweeping, s.now + evictionInterval, s.cache⟩ := by
  unfold sweeperStep
  rw [h]

theorem sweeperStep_of_sweeping (s : SweeperState) (h : s.phase = .sweeping) :
    sweeperStep s = ⟨.sleeping, s.now, sweepPass s.now s.cache⟩ := by
  unfold sweeperStep
  rw [h]

/-- C9: from every state of the eviction loop the phase `sweeping` is
reached again at arbitrarily late steps (there is no terminal state), and a
sweeping step always returns to `sleeping` while examining every entry of
the pass: no entry young enough to stay can be skipped or dropped, whatever
happened to the other keys. -/
theorem startCacheEviction_no_terminal :
    (∀ (s : SweeperState) (n : Nat),
      ∃ m, n < m ∧ (sweeperStep^[m] s).phase = .sweeping) ∧
    (∀ s : SweeperState, s.phase = .sweeping →
      (sweeperStep s).phase = .sleeping ∧
      ∀ p ∈ s.cache, s.now - p.2.timestamp ≤ cacheDuration →
        p ∈ (sweeperStep s).cache) := by
  constructor
  · intro s n
    cases hp : (sweeperStep^[n] s).phase with
    | sleeping =>
      refine ⟨n + 1, Nat.lt_succ_self n, ?_⟩
      rw [Function.iterate_succ_apply', sweeperStep_of_sleeping _ hp]
    | sweeping =>
      refine ⟨n + 2, by omega, ?_⟩
      have hstep : (sweeperStep^[n + 1] s).phase = .sleeping := by
        rw [Function.iterate_succ_apply', sweeperStep_of_sweeping _ hp]
      have h2 : n + 2 = (n + 1) + 1 := rfl
      rw [h2, Function.iterate_succ_apply', sweeperStep_of_sleeping _ hstep]
  · intro s hs
    rw [sweeperStep_of_sweeping s hs]
    refine ⟨rfl, ?_⟩
    intro p hp hfresh
    simp only [sweepPass, List.mem_filter]
    refine ⟨hp, ?_⟩
    simp only [decide_eq_true_eq]
    omega

/-- Witness for C9: a concrete sweeping state steps back to sleeping and
keeps its fresh entry. -/
theorem startCacheEviction_no_terminal_witness :
    (sweeperStep ⟨.sweeping, 1, [("a", ⟨samplePayload, 0⟩)]⟩).phase = .sleeping ∧
    ("a", (⟨samplePayload, 0⟩ : CacheEntry))
      ∈ (sweeperStep ⟨.sweeping, 1, [("a", ⟨samplePayload, 0⟩)]⟩).cache :=
  ⟨(startCacheEviction_no_terminal.2 ⟨.sweeping, 1, [("a", ⟨samplePayload, 0⟩)]⟩ rfl).1,
   (startCacheEviction_no_terminal.2 ⟨.sweeping, 1, [("a", ⟨samplePayload, 0⟩)]⟩ rfl).2
     ("a", ⟨samplePayload, 0⟩) (by simp) (by decide)⟩

/-! ### C10 - serialization indexes Weather[0] without a guard -/

/-- C10: `respondWithWeather` reads `Weather[0].Main` unguarded — every
payload with a non-empty `Weather` list yields a response, and that
precondition is genuinely required: `getWeather` neither rejects nor filters
a decoded payload with an empty `Weather` list, caching it and handing it to
serialization, where the unguarded index is out of range (modelled `none`). -/
theorem respondWithWeather_head_unguarded :
    (∀ wr : WeatherResponse, wr.weather ≠ [] → (respondWithWeather wr).isSome) ∧
    (∀ (parse : String → Option Rat) (latStr lonStr : String) (now : Int)
      (resp : WeatherResponse) (c : Cache) (lat lon : Rat),
      latStr ≠ "" → lonStr ≠ "" →
      parse latStr = some lat → isValidLatitude lat = true →
      parse lonStr = some lon → isValidLongitude lon = true →
      cacheGet c (mkKey latStr lonStr) = none →
      resp.weather = [] →
      getWeather parse latStr lonStr now (.ok resp) c
        = ⟨.ok resp, cachePut c (mkKey latStr lonStr) ⟨resp, now⟩, true⟩ ∧
      respondWithWeather resp = none) := by
  constructor
  · intro wr hw
    cases hwe : wr.weather with
    | nil => exact absurd hwe hw
    | cons w ws => simp [respondWithWeather, hwe]
  · intro parse latStr lonStr now resp c lat lon hla hlo hpla hvla hplo hvlo hnone hw
    constructor
    · simp [getWeather, fetchAndCache, hla, hlo, hpla, hplo, hvla, hvlo, hnone]
    · simp [respondWithWeather, hw]

/-- Witness for C10: a normal payload serializes; the empty-weather payload
is cached, returned, and fails serialization. -/
theorem respondWithWeather_head_unguarded_witness :
    (respondWithWeather samplePayload).isSome ∧
    (getWeather (fun s => if s = "40.0" then some 40 else some (-75)) "40.0" "-75.0"
        5 (.ok emptyWeatherPayload) []
      = ⟨.ok emptyWeatherPayload,
          cachePut [] (mkKey "40.0" "-75.0") ⟨emptyWeatherPayload, 5⟩, true⟩ ∧
      respondWithWeather emptyWeatherPayload = none) :=
  ⟨respondWithWeather_head_unguarded.1 samplePayload (by decide),
   respondWithWeather_head_unguarded.2 (fun s => if s = "40.0" then some 40 else some (-75))
     "40.0" "-75.0" 5 emptyWeatherPayload [] 40 (-75)
     (by decide) (by decide) (by simp) (by decide) (by simp) (by decide) rfl rfl⟩

/-! ### The snapshot endpoint reads but never writes the store -/

/-- The pure frame part of the snapshot contract of `getCache`: the cache
after the call is the cache before it, and the serialized mapping lists
exactly the stored (key, payload, timestamp) triples. -/
theorem getCache_frame (c : Cache) : (getCache c).2 = c ∧ (getCache c).1 = c := by
  refine ⟨rfl, ?_⟩
  show List.map id c = c
  exact List.map_id c

end WeatherApp
